import Mathlib

/-!
Verification of the LaLiga tier-list scoring core: a shallow embedding of
`src/tier_calculator.py` (team scoring and tier assignment) and
`src/player_analyzer.py` (position-scoped player scoring and head-to-head
comparison), with theorems settling the frozen claims about them.

Conventions of the embedding:
* Python floats are modelled as `ℚ`; a pandas cell that may be `NaN` is
  `Option ℚ` (`none` = NaN / missing).
* A Python dict built by inserting distinct keys in order is a `List (key × value)`.
* Fallible code (numpy `percentile` on an empty list raises; a `KeyError` on a
  dict lookup) returns `Option`, `none` modelling the raised exception.
-/

set_option maxRecDepth 4000

/-! ## Tiers and the target distribution (`tier_calculator.py`) -/

inductive Tier where
  | S
  | A
  | B
  | C
  | D
deriving DecidableEq, Repr

/-- Position of a tier in the best-to-worst order S, A, B, C, D. -/
def tierRank : Tier → Nat
  | .S => 0
  | .A => 1
  | .B => 2
  | .C => 3
  | .D => 4

/-- `tier_order = ['S', 'A', 'B', 'C', 'D']`. -/
def tier_order : List Tier := [.S, .A, .B, .C, .D]

/-- `ideal_distribution = {'S': 3, 'A': 4, 'B': 5, 'C': 5, 'D': 3}`. -/
def ideal_distribution : Tier → Nat
  | .S => 3
  | .A => 4
  | .B => 5
  | .C => 5
  | .D => 3

/-- `current_counts[tier] += 1`. -/
def bump (c : Tier → Nat) (t : Tier) : Tier → Nat :=
  fun u => if u = t then c u + 1 else c u

/-- The first tier of `tier_order` whose running count is below its target
(the inner `for tier in tier_order` loop of `_balance_tiers`). -/
def firstAvail (c : Tier → Nat) : Option Tier :=
  tier_order.find? (fun t => c t < ideal_distribution t)

/-- The inner `for tier in reversed(tier_order)` loop of `_balance_tiers`,
reached only when the first loop assigned nothing. -/
def lastAvail (c : Tier → Nat) : Option Tier :=
  tier_order.reverse.find? (fun t => c t < ideal_distribution t)

/-- The `for team, score in sorted_teams` loop of `_balance_tiers`: each team is
given the first tier with room; if none has room the reversed scan runs (its
condition is the same, so it also finds nothing and the team gets no entry). -/
def balanceLoop : List (String × ℚ) → (Tier → Nat) → List (String × Tier)
  | [], _ => []
  | (team, _score) :: rest, counts =>
    match firstAvail counts with
    | some t => (team, t) :: balanceLoop rest (bump counts t)
    | none =>
      match lastAvail counts with
      | some t => (team, t) :: balanceLoop rest (bump counts t)
      | none => balanceLoop rest counts

/-- `TierCalculator._balance_tiers(tiers, sorted_teams)`: the `tiers` argument is
only used to compute the unused `tier_counts`, so the result depends on
`sorted_teams` alone. -/
def balance_tiers (tiers : List (String × Tier)) (sorted_teams : List (String × ℚ)) :
    List (String × Tier) :=
  let _tier_counts := tiers
  balanceLoop sorted_teams (fun _ => 0)

/-! ## Sorting and percentiles -/

/-- Descending order on scores; used so that the stable insertion sort models
`sorted(team_scores.items(), key=lambda x: x[1], reverse=True)` (Python's sort
is stable and keeps the original order of equal scores). -/
def scoreGE (x y : String × ℚ) : Prop := y.2 ≤ x.2

instance : DecidableRel scoreGE := fun x y => inferInstanceAs (Decidable (y.2 ≤ x.2))

instance : IsTotal (String × ℚ) scoreGE := ⟨fun a b => le_total b.2 a.2⟩

instance : IsTrans (String × ℚ) scoreGE := ⟨fun _ _ _ h h2 => le_trans h2 h⟩

def sortDescByScore (l : List (String × ℚ)) : List (String × ℚ) :=
  List.insertionSort scoreGE l

/-- The value `np.percentile(l, q)` computes for a nonempty `l` (default linear
interpolation): the virtual index is `q/100 * (n-1)` and the result
interpolates between the neighbouring order statistics. -/
def percentileVal (l : List ℚ) (q : ℚ) : ℚ :=
  let s := List.insertionSort (fun a b : ℚ => a ≤ b) l
  let n : ℚ := s.length
  let pos := q * (n - 1) / 100
  let i : Nat := pos.floor.toNat
  let a := s.getD i 0
  let b := s.getD (i + 1) a
  a + (pos - (pos.floor : ℚ)) * (b - a)

/-- `np.percentile` raises `IndexError` on an empty array (modelled as `none`). -/
def percentile (l : List ℚ) (q : ℚ) : Option ℚ :=
  if l.isEmpty then none else some (percentileVal l q)

/-- The percentile-threshold first pass of `assign_tiers`. -/
def firstPassTier (s_threshold a_threshold b_threshold c_threshold score : ℚ) : Tier :=
  if score ≥ s_threshold then .S
  else if score ≥ a_threshold then .A
  else if score ≥ b_threshold then .B
  else if score ≥ c_threshold then .C
  else .D

/-- `TierCalculator.assign_tiers(team_scores)`. -/
def assign_tiers (team_scores : List (String × ℚ)) : Option (List (String × Tier)) :=
  let sorted_teams := sortDescByScore team_scores
  let scores_list := sorted_teams.map Prod.snd
  match percentile scores_list 85, percentile scores_list 65,
      percentile scores_list 40, percentile scores_list 20 with
  | some s_threshold, some a_threshold, some b_threshold, some c_threshold =>
    let tiers := sorted_teams.map
      (fun p => (p.1, firstPassTier s_threshold a_threshold b_threshold c_threshold p.2))
    some (balance_tiers tiers sorted_teams)
  | _, _, _, _ => none

/-! ## Team scoring (`TierCalculator.calculate_team_scores`) -/

def listMax : List ℚ → ℚ
  | [] => 0
  | [x] => x
  | x :: y :: xs => max x (listMax (y :: xs))

def listMin : List ℚ → ℚ
  | [] => 0
  | [x] => x
  | x :: y :: xs => min x (listMin (y :: xs))

/-- Normalization of a higher-is-better metric over a group of raw values. -/
def normHigher (vals : List ℚ) (x : ℚ) : ℚ :=
  let max_val := listMax vals
  let min_val := listMin vals
  if max_val ≠ min_val then (x - min_val) / (max_val - min_val) * 100 else 50

/-- Normalization of a lower-is-better metric (inverted). -/
def normLower (vals : List ℚ) (x : ℚ) : ℚ :=
  let max_val := listMax vals
  let min_val := listMin vals
  if max_val ≠ min_val then (max_val - x) / (max_val - min_val) * 100 else 50

/-- One row of the teams table, with the columns `calculate_team_scores` reads. -/
structure TeamRow where
  team : String
  position : ℚ
  goals_for : ℚ
  goals_against : ℚ
  possession_avg : ℚ
  pass_accuracy : ℚ
  shots_per_game : ℚ
  clean_sheets : ℚ

/-- The weighted score of one team row: norm columns times the fixed
`self.weights` (position is lower-is-better, goals_against is lower-is-better,
the rest higher-is-better). -/
def teamScore (teams : List TeamRow) (t : TeamRow) : ℚ :=
  normLower (teams.map (·.position)) t.position * (35 / 100)
    + normHigher (teams.map (·.goals_for)) t.goals_for * (15 / 100)
    + normLower (teams.map (·.goals_against)) t.goals_against * (15 / 100)
    + normHigher (teams.map (·.possession_avg)) t.possession_avg * (10 / 100)
    + normHigher (teams.map (·.pass_accuracy)) t.pass_accuracy * (10 / 100)
    + normHigher (teams.map (·.shots_per_game)) t.shots_per_game * (8 / 100)
    + normHigher (teams.map (·.clean_sheets)) t.clean_sheets * (7 / 100)

/-- `TierCalculator.calculate_team_scores(teams_data, standings)`. -/
def calculate_team_scores (teams : List TeamRow) : List (String × ℚ) :=
  teams.map (fun t => (t.team, teamScore teams t))

/-! ## Player scoring (`player_analyzer.py`) -/

/-- One row of the players table.  `cell` gives the raw value of a metric
column for this player; `none` is a NaN cell (or a column the table lacks, in
which case the column name is also missing from the table's column list). -/
structure PRow where
  name : String
  position : String
  cell : String → Option ℚ

def forwardWeights : List (String × ℚ) :=
  [("goals", 40 / 100), ("assists", 25 / 100), ("appearances", 15 / 100),
   ("market_value", 20 / 100)]

def midfielderWeights : List (String × ℚ) :=
  [("goals", 20 / 100), ("assists", 35 / 100), ("appearances", 20 / 100),
   ("market_value", 25 / 100)]

def defenderWeights : List (String × ℚ) :=
  [("goals", 10 / 100), ("assists", 15 / 100), ("clean_sheets", 35 / 100),
   ("appearances", 20 / 100), ("market_value", 20 / 100)]

def goalkeeperWeights : List (String × ℚ) :=
  [("saves", 40 / 100), ("clean_sheets", 35 / 100), ("appearances", 15 / 100),
   ("market_value", 10 / 100)]

/-- `self.position_weights` as a dict: `none` models a missing key. -/
def position_weights : String → Option (List (String × ℚ))
  | "Forward" => some forwardWeights
  | "Midfielder" => some midfielderWeights
  | "Defender" => some defenderWeights
  | "Goalkeeper" => some goalkeeperWeights
  | _ => none

/-- pandas `Series.max()` with the default `skipna=True`: the maximum of the
non-NaN cells, NaN (`none`) when every cell is NaN. -/
def nanMax (vs : List (Option ℚ)) : Option ℚ :=
  match vs.filterMap id with
  | [] => none
  | x :: xs => some (listMax (x :: xs))

def nanMin (vs : List (Option ℚ)) : Option ℚ :=
  match vs.filterMap id with
  | [] => none
  | x :: xs => some (listMin (x :: xs))

/-- The `{metric}_norm` cell `_normalize_position_metrics` produces for row `r`
of the position group:
* no norm column at all (`none`) when the metric is not in the position's
  weight keys or not a column of the table;
* otherwise, when `max != min and max > 0`, the min-max formula (NaN raw cell
  gives a NaN norm cell, since pandas arithmetic propagates NaN);
* otherwise the scalar 50, written into every row of the group.
The all-NaN column lands in the 50 branch exactly as in Python, where
`max_val != min_val` is `NaN != NaN = True` but `max_val > 0` is False. -/
def normVal (metrics_to_normalize : List String) (group : List PRow)
    (cols : List String) (metric : String) (r : PRow) : Option ℚ :=
  if metric ∈ metrics_to_normalize ∧ metric ∈ cols then
    let vals := group.map (fun p => p.cell metric)
    match nanMax vals, nanMin vals with
    | some max_val, some min_val =>
      if max_val ≠ min_val ∧ max_val > 0 then
        (r.cell metric).map (fun raw => (raw - min_val) / (max_val - min_val) * 100)
      else some 50
    | _, _ => some 50
  else none

/-- One step of the `for metric, weight in weights.items()` loop: accumulate
`norm * weight` and `weight` when the norm cell exists and is not NaN. -/
def playerScoreStep (normOf : String → Option ℚ) (acc : ℚ × ℚ) (mw : String × ℚ) : ℚ × ℚ :=
  match normOf mw.1 with
  | some v => (acc.1 + v * mw.2, acc.2 + mw.2)
  | none => acc

/-- The per-player score: the accumulation loop followed by
`if total_weight > 0: score = score / total_weight * 100`. -/
def playerScore (weights : List (String × ℚ)) (normOf : String → Option ℚ) : ℚ :=
  let p := weights.foldl (playerScoreStep normOf) (0, 0)
  if p.2 > 0 then p.1 / p.2 * 100 else p.1

/-- `PlayerAnalyzer.calculate_player_scores(players_data, position)`.  The
table is passed as its column list plus its rows.  `none` models the
`KeyError` that `_normalize_position_metrics` raises via
`self.position_weights[position]` when the position has no weight entry (the
`weights` local got a Forward fallback via `.get`, but the helper is called
before `weights` is ever used). -/
def calculate_player_scores (cols : List String) (rows : List PRow)
    (position : String) : Option (List (String × ℚ)) :=
  if rows.isEmpty then some []
  else
    let position_players := rows.filter (fun p => p.position == position)
    if position_players.isEmpty then some []
    else
      let weights := (position_weights position).getD forwardWeights
      match position_weights position with
      | none => none
      | some pw =>
        let metrics_to_normalize := pw.map Prod.fst
        some (position_players.map (fun r =>
          (r.name,
            playerScore weights
              (fun m => normVal metrics_to_normalize position_players cols m r))))

/-- `PlayerAnalyzer.compare_players(player1_data, player2_data)`: result is
`(score1, score2, winner)`; `none` models the mismatched-position error dict
and the `KeyError` propagated from scoring an unknown position. -/
def compare_players (cols : List String) (p1_data p2_data : PRow) :
    Option (ℚ × ℚ × String) :=
  if p1_data.position ≠ p2_data.position then none
  else
    match calculate_player_scores cols [p1_data, p2_data] p1_data.position with
    | none => none
    | some player_scores =>
      let score1 := (player_scores.lookup p1_data.name).getD 0
      let score2 := (player_scores.lookup p2_data.name).getD 0
      let winner :=
        if score1 > score2 then p1_data.name
        else if score2 > score1 then p2_data.name
        else "Draw"
      some (score1, score2, winner)

/-! ## Reference definitions written from the spec's words -/

/-- Reference normalizer as the spec states it: midpoint 50 on a degenerate
group (`max = min`), otherwise the min-max formula, inverted for
lower-is-better metrics. -/
def specNormalize (higherIsBetter : Bool) (vals : List ℚ) (raw : ℚ) : ℚ :=
  let mx := listMax vals
  let mn := listMin vals
  if mx = mn then 50
  else if higherIsBetter then (raw - mn) / (mx - mn) * 100
  else (mx - raw) / (mx - mn) * 100

/-- The per-entity score formula exactly as claim C6 states it: only metrics
present (column exists, raw cell not NaN) for the entity contribute
weight·normalized-value to the numerator and weight to the denominator. -/
def claimC6Score (weights : List (String × ℚ)) (cols : List String)
    (group : List PRow) (r : PRow) : ℚ :=
  let used := weights.filter (fun mw => decide (mw.1 ∈ cols) && (r.cell mw.1).isSome)
  let tw := (used.map Prod.snd).sum
  let s := (used.map (fun mw =>
    (normVal (weights.map Prod.fst) group cols mw.1 r).getD 0 * mw.2)).sum
  if 0 < tw then s / tw * 100 else 0

/-- Which of two players is ahead on a raw metric: `1` if the first, `-1` if
the second, `0` on a tie (absent cells read as 0). -/
def aheadOn (p q : PRow) (m : String) : Int :=
  let a := (p.cell m).getD 0
  let b := (q.cell m).getD 0
  if b < a then 1 else if a < b then -1 else 0

/-- The head-to-head winner as determined purely by the ahead-pattern on the
weighted metrics and the weights themselves (claim C10's reading): the sign of
the weighted sum of the pattern decides. -/
def winnerFromPattern (weights : List (String × ℚ)) (cols : List String)
    (pat : String → Int) (n1 n2 : String) : String :=
  let d := (weights.filter (fun mw => decide (mw.1 ∈ cols))).foldl
    (fun acc mw => acc + mw.2 * (pat mw.1 : ℚ)) 0
  if 0 < d then n1 else if d < 0 then n2 else "Draw"

/-! ## Index-based description of the rebalance pass (proof scaffolding) -/

/-- The tier the greedy rebalance gives the entity at index `i` of the
descending-sorted list: the cumulative targets are 3, 7, 12, 17, 20, and
indices from 20 on get nothing. -/
def tierOfIndex (i : Nat) : Option Tier :=
  if i < 3 then some .S
  else if i < 7 then some .A
  else if i < 12 then some .B
  else if i < 17 then some .C
  else if i < 20 then some .D
  else none

/-- Start index of each tier's block of the descending-sorted list. -/
def tierLo : Tier → Nat
  | .S => 0
  | .A => 3
  | .B => 7
  | .C => 12
  | .D => 17

/-- The running per-tier counts after the first `n` entities were processed. -/
def idealCounts (n : Nat) : Tier → Nat :=
  fun t => min (ideal_distribution t) (n - tierLo t)

/-- Index-based restatement of the rebalance loop: the entity at global index
`n` gets `tierOfIndex n`. -/
def balanceSpec : List (String × ℚ) → Nat → List (String × Tier)
  | [], _ => []
  | (team, _) :: rest, n =>
    match tierOfIndex n with
    | some t => (team, t) :: balanceSpec rest (n + 1)
    | none => balanceSpec rest (n + 1)

/-! ## Concrete inputs used by witnesses and counterexamples -/

/-- A player record over the four Forward metric columns. -/
def exCell (goals assists appearances market_value : Option ℚ) :
    String → Option ℚ
  | "goals" => goals
  | "assists" => assists
  | "appearances" => appearances
  | "market_value" => market_value
  | _ => none

def metricCols : List String := ["goals", "assists", "appearances", "market_value"]

def exQ1 : PRow := ⟨"q1", "Forward", exCell (some 0) (some 0) (some 0) (some 0)⟩

def exQ2 : PRow := ⟨"q2", "Forward", exCell (some 5) (some 5) (some 5) (some 5)⟩

def exP1 : PRow := ⟨"p1", "Forward", exCell (some 3) (some 0) (some 0) (some 0)⟩

def exP2 : PRow := ⟨"p2", "Forward", exCell none (some 2) (some 10) (some 10)⟩

def exG1 : PRow := ⟨"g1", "Forward", exCell (some (-2)) none none none⟩

def exG2 : PRow := ⟨"g2", "Forward", exCell (some (-1)) none none none⟩

def exWinger : PRow := ⟨"w1", "Winger", exCell (some 1) (some 1) (some 1) (some 1)⟩

def exDefender : PRow := ⟨"d1", "Defender", exCell (some 1) (some 1) (some 1) (some 1)⟩

def exA1 : PRow := ⟨"X", "Forward", exCell (some (-1)) (some 5) (some 5) (some 5)⟩

def exA2 : PRow := ⟨"Y", "Forward", exCell (some (-2)) (some 5) (some 5) (some 5)⟩

def exB1 : PRow := ⟨"X", "Forward", exCell (some 2) (some 5) (some 5) (some 5)⟩

def exB2 : PRow := ⟨"Y", "Forward", exCell (some 1) (some 5) (some 5) (some 5)⟩

def exTeamRow : TeamRow := ⟨"mad", 1, 70, 30, 58, 86, 15, 12⟩

/-- Twenty entities with distinct descending scores. -/
def ex20 : List (String × ℚ) :=
  [("t01", 200), ("t02", 190), ("t03", 180), ("t04", 170), ("t05", 160),
   ("t06", 150), ("t07", 140), ("t08", 130), ("t09", 120), ("t10", 110),
   ("t11", 100), ("t12", 90), ("t13", 80), ("t14", 70), ("t15", 60),
   ("t16", 50), ("t17", 40), ("t18", 30), ("t19", 20), ("t20", 10)]

/-- A twenty-first entity with the lowest score. -/
def ex21 : List (String × ℚ) := ex20 ++ [("t21", 5)]

/-- The tier assignment the rebalance pass produces for `ex20` (and, with the
extra entity dropped, also for `ex21`). -/
def ex20t : List (String × Tier) :=
  [("t01", .S), ("t02", .S), ("t03", .S),
   ("t04", .A), ("t05", .A), ("t06", .A), ("t07", .A),
   ("t08", .B), ("t09", .B), ("t10", .B), ("t11", .B), ("t12", .B),
   ("t13", .C), ("t14", .C), ("t15", .C), ("t16", .C), ("t17", .C),
   ("t18", .D), ("t19", .D), ("t20", .D)]

/-! ## Lemmas: the rebalance loop assigns tiers by sorted index -/

theorem idealCounts_zero : idealCounts 0 = fun _ => 0 := by
  funext t
  cases t <;> rfl

theorem tierOfIndex_some_iff {n : Nat} {t : Tier} :
    tierOfIndex n = some t ↔ tierLo t ≤ n ∧ n < tierLo t + ideal_distribution t := by
  cases t <;> (unfold tierOfIndex tierLo ideal_distribution; split_ifs <;> simp <;> omega)

theorem tierOfIndex_none_iff {n : Nat} : tierOfIndex n = none ↔ 20 ≤ n := by
  unfold tierOfIndex
  split_ifs <;> simp <;> omega

theorem idealCounts_full {n : Nat} (h : 20 ≤ n) (t : Tier) :
    idealCounts n t = ideal_distribution t := by
  cases t <;> (simp [idealCounts, tierLo, ideal_distribution]; omega)

theorem firstAvail_idealCounts (n : Nat) : firstAvail (idealCounts n) = tierOfIndex n := by
  by_cases h : n < 20
  · interval_cases n <;> decide
  · have h20 : 20 ≤ n := by omega
    rw [tierOfIndex_none_iff.mpr h20]
    unfold firstAvail tier_order
    simp [List.find?, idealCounts_full h20, ideal_distribution]

theorem lastAvail_idealCounts {n : Nat} (h20 : 20 ≤ n) : lastAvail (idealCounts n) = none := by
  unfold lastAvail tier_order
  simp [List.find?, idealCounts_full h20, ideal_distribution]

theorem bump_idealCounts {n : Nat} {t : Tier} (h : tierOfIndex n = some t) :
    bump (idealCounts n) t = idealCounts (n + 1) := by
  rw [tierOfIndex_some_iff] at h
  funext u
  cases u <;> cases t <;>
    simp_all [bump, idealCounts, tierLo, ideal_distribution] <;> omega

theorem idealCounts_succ_of_ge {n : Nat} (h : 20 ≤ n) :
    idealCounts (n + 1) = idealCounts n := by
  funext t
  rw [idealCounts_full h t, idealCounts_full (by omega) t]

theorem balanceLoop_eq_balanceSpec (l : List (String × ℚ)) :
    ∀ n, balanceLoop l (idealCounts n) = balanceSpec l n := by
  induction l with
  | nil => intro n; rfl
  | cons hd rest ih =>
    intro n
    obtain ⟨team, s⟩ := hd
    simp only [balanceLoop, balanceSpec]
    rw [firstAvail_idealCounts]
    cases h : tierOfIndex n with
    | some t =>
      dsimp only
      rw [bump_idealCounts h, ih (n + 1)]
    | none =>
      have h20 : 20 ≤ n := tierOfIndex_none_iff.mp h
      dsimp only
      rw [lastAvail_idealCounts h20, ← idealCounts_succ_of_ge h20, ih (n + 1)]

theorem balance_tiers_eq (tiers : List (String × Tier)) (sorted_teams : List (String × ℚ)) :
    balance_tiers tiers sorted_teams = balanceSpec sorted_teams 0 := by
  unfold balance_tiers
  rw [← idealCounts_zero, balanceLoop_eq_balanceSpec]

theorem balanceSpec_key_mem (l : List (String × ℚ)) :
    ∀ n x t, (x, t) ∈ balanceSpec l n → x ∈ l.map Prod.fst := by
  induction l with
  | nil => intro n x t h; simp [balanceSpec] at h
  | cons hd rest ih =>
    intro n x t h
    obtain ⟨team, s⟩ := hd
    simp only [balanceSpec] at h
    simp only [List.map_cons, List.mem_cons]
    cases hidx : tierOfIndex n with
    | some u =>
      rw [hidx] at h
      dsimp only at h
      rcases List.mem_cons.mp h with heq | htail
      · left
        exact congrArg Prod.fst heq
      · right
        exact ih (n + 1) x t htail
    | none =>
      rw [hidx] at h
      dsimp only at h
      right
      exact ih (n + 1) x t h

theorem balanceSpec_keys_of_le (l : List (String × ℚ)) :
    ∀ n, n + l.length ≤ 20 → (balanceSpec l n).map Prod.fst = l.map Prod.fst := by
  induction l with
  | nil => intro n _; rfl
  | cons hd rest ih =>
    intro n hle
    obtain ⟨team, s⟩ := hd
    have hn : n < 20 := by simp at hle; omega
    obtain ⟨t, ht⟩ : ∃ t, tierOfIndex n = some t := by
      cases h : tierOfIndex n with
      | some t => exact ⟨t, rfl⟩
      | none => exact absurd (tierOfIndex_none_iff.mp h) (by omega)
    simp only [balanceSpec, ht]
    dsimp only [List.map]
    rw [ih (n + 1) (by simp at hle; omega)]

theorem balanceSpec_countP (l : List (String × ℚ)) (t : Tier) :
    ∀ n, (balanceSpec l n).countP (fun p => p.2 == t) =
      idealCounts (n + l.length) t - idealCounts n t := by
  induction l with
  | nil => intro n; simp [balanceSpec]
  | cons hd rest ih =>
    intro n
    obtain ⟨team, s⟩ := hd
    have hmono : idealCounts n t ≤ idealCounts (n + 1) t ∧
        idealCounts (n + 1) t ≤ idealCounts (n + 1 + rest.length) t := by
      cases t <;> simp [idealCounts, tierLo, ideal_distribution] <;> omega
    simp only [balanceSpec]
    cases h : tierOfIndex n with
    | some u =>
      have hb := congrFun (bump_idealCounts h) t
      simp only [bump] at hb
      dsimp only
      rw [List.countP_cons, ih (n + 1)]
      simp only [List.length_cons]
      have harr : n + (rest.length + 1) = n + 1 + rest.length := by omega
      rw [harr]
      by_cases hut : t = u
      · rw [if_pos hut] at hb
        subst hut
        simp only [beq_self_eq_true, if_pos]
        omega
      · rw [if_neg hut] at hb
        have hbeq : ((u : Tier) == t) = false :=
          beq_eq_false_iff_ne.mpr (fun e => hut e.symm)
        simp only [hbeq, Bool.false_eq_true, if_false]
        omega
    | none =>
      have h20 : 20 ≤ n := tierOfIndex_none_iff.mp h
      dsimp only
      rw [ih (n + 1)]
      have he := congrFun (idealCounts_succ_of_ge h20) t
      simp only [List.length_cons]
      have harr : n + (rest.length + 1) = n + 1 + rest.length := by omega
      rw [harr]
      omega

theorem balanceSpec_tier_ge (l : List (String × ℚ)) :
    ∀ n x t, (x, t) ∈ balanceSpec l n → ∃ k, n ≤ k ∧ tierOfIndex k = some t := by
  induction l with
  | nil => intro n x t h; simp [balanceSpec] at h
  | cons hd rest ih =>
    intro n x t h
    obtain ⟨team, s⟩ := hd
    simp only [balanceSpec] at h
    cases hidx : tierOfIndex n with
    | some u =>
      rw [hidx] at h
      dsimp only at h
      rcases List.mem_cons.mp h with heq | htail
      · have : t = u := congrArg Prod.snd heq
        exact ⟨n, le_refl n, by rw [hidx, this]⟩
      · obtain ⟨k, hk, hko⟩ := ih (n + 1) x t htail
        exact ⟨k, by omega, hko⟩
    | none =>
      rw [hidx] at h
      dsimp only at h
      obtain ⟨k, hk, hko⟩ := ih (n + 1) x t h
      exact ⟨k, by omega, hko⟩

theorem tierRank_mono {m k : Nat} {t u : Tier} (hle : m ≤ k)
    (hm : tierOfIndex m = some t) (hk : tierOfIndex k = some u) :
    tierRank t ≤ tierRank u := by
  rw [tierOfIndex_some_iff] at hm hk
  cases t <;> cases u <;>
    simp_all [tierLo, ideal_distribution, tierRank] <;> omega

theorem nodup_fst_snd_eq {l : List (String × ℚ)} (hnd : (l.map Prod.fst).Nodup)
    {a : String} {x y : ℚ} (hx : (a, x) ∈ l) (hy : (a, y) ∈ l) : x = y := by
  induction l with
  | nil => simp at hx
  | cons hd rest ih =>
    obtain ⟨k, v⟩ := hd
    simp only [List.map_cons, List.nodup_cons] at hnd
    rcases List.mem_cons.mp hx with hex | hxr
    · rcases List.mem_cons.mp hy with hey | hyr
      · have e1 : x = v := congrArg Prod.snd hex
        have e2 : y = v := congrArg Prod.snd hey
        rw [e1, e2]
      · have ea : a = k := congrArg Prod.fst hex
        have hmem : a ∈ rest.map Prod.fst := List.mem_map_of_mem Prod.fst hyr
        exact absurd (ea ▸ hmem) hnd.1
    · rcases List.mem_cons.mp hy with hey | hyr
      · have ea : a = k := congrArg Prod.fst hey
        have hmem : a ∈ rest.map Prod.fst := List.mem_map_of_mem Prod.fst hxr
        exact absurd (ea ▸ hmem) hnd.1
      · exact ih hnd.2 hxr hyr

theorem balanceSpec_rank_le (l : List (String × ℚ)) :
    ∀ n, (l.map Prod.fst).Nodup → l.Pairwise scoreGE →
    ∀ na sa nb sb ta tb, (na, sa) ∈ l → (nb, sb) ∈ l → sb < sa →
    (na, ta) ∈ balanceSpec l n → (nb, tb) ∈ balanceSpec l n →
    tierRank ta ≤ tierRank tb := by
  induction l with
  | nil => intro n _ _ na sa nb sb ta tb ha; simp at ha
  | cons hd rest ih =>
    intro n hnd hpw na sa nb sb ta tb ha hb hlt hta htb
    obtain ⟨team, score⟩ := hd
    simp only [List.map_cons, List.nodup_cons] at hnd
    rw [List.pairwise_cons] at hpw
    simp only [balanceSpec] at hta htb
    cases hidx : tierOfIndex n with
    | some u =>
      rw [hidx] at hta htb
      dsimp only at hta htb
      rcases List.mem_cons.mp hta with haeq | hatail
      · -- na is the head entity and gets tier u
        have hna : na = team := congrArg Prod.fst haeq
        have hta_u : ta = u := congrArg Prod.snd haeq
        -- nb must live in the tail of the assignment
        rcases List.mem_cons.mp htb with hbeq | hbtail
        · -- then nb = team = na, so sb = sa, contradicting sb < sa
          have hnb : nb = team := congrArg Prod.fst hbeq
          have hnd2 : (((team, score) :: rest).map Prod.fst).Nodup := by
            simp only [List.map_cons, List.nodup_cons]
            exact ⟨hnd.1, hnd.2⟩
          have hb2 : (na, sb) ∈ (team, score) :: rest := by
            rw [hna]
            rw [hnb] at hb
            exact hb
          have hone : sa = sb := nodup_fst_snd_eq hnd2 ha hb2
          exact absurd hlt (by rw [hone]; exact lt_irrefl sb)
        · obtain ⟨k, hk, hko⟩ := balanceSpec_tier_ge rest (n + 1) nb tb hbtail
          rw [hta_u]
          exact tierRank_mono (by omega) hidx hko
      · -- na's assignment is in the tail, so na is in the tail of the list
        have hna_tail : na ∈ rest.map Prod.fst := balanceSpec_key_mem rest (n + 1) na ta hatail
        have hna_ne : na ≠ team := fun e => hnd.1 (e ▸ hna_tail)
        have ha_rest : (na, sa) ∈ rest := by
          rcases List.mem_cons.mp ha with hae | har
          · exact absurd (congrArg Prod.fst hae) hna_ne
          · exact har
        rcases List.mem_cons.mp htb with hbeq | hbtail
        · -- nb would be the head entity: its score is ≥ sa, contradicting sb < sa
          have hnb : nb = team := congrArg Prod.fst hbeq
          have hsa_le : sa ≤ score := hpw.1 (na, sa) ha_rest
          rcases List.mem_cons.mp hb with hbe | hbr
          · have hsb : sb = score := congrArg Prod.snd hbe
            exact absurd hlt (not_lt.mpr (by rw [hsb]; exact hsa_le))
          · have hmem : nb ∈ rest.map Prod.fst := List.mem_map_of_mem Prod.fst hbr
            exact absurd (hnb ▸ hmem) hnd.1
        · exact ih (n + 1) hnd.2 hpw.2 na sa nb sb ta tb ha_rest
            (by
              rcases List.mem_cons.mp hb with hbe | hbr
              · have e2 : nb = team := congrArg Prod.fst hbe
                have hmem2 : nb ∈ rest.map Prod.fst :=
                  balanceSpec_key_mem rest (n + 1) nb tb hbtail
                exact absurd (e2 ▸ hmem2) hnd.1
              · exact hbr)
            hlt hatail hbtail
    | none =>
      rw [hidx] at hta htb
      dsimp only at hta htb
      have hna_ne : na ≠ team :=
        fun e => hnd.1 (e ▸ balanceSpec_key_mem rest (n + 1) na ta hta)
      have hnb_ne : nb ≠ team :=
        fun e => hnd.1 (e ▸ balanceSpec_key_mem rest (n + 1) nb tb htb)
      have ha_rest : (na, sa) ∈ rest := by
        rcases List.mem_cons.mp ha with hae | har
        · exact absurd (congrArg Prod.fst hae) hna_ne
        · exact har
      have hb_rest : (nb, sb) ∈ rest := by
        rcases List.mem_cons.mp hb with hbe | hbr
        · exact absurd (congrArg Prod.fst hbe) hnb_ne
        · exact hbr
      exact ih (n + 1) hnd.2 hpw.2 na sa nb sb ta tb ha_rest hb_rest hlt hta htb

/-! ## Sorting and percentile plumbing -/

theorem sortDescByScore_perm (l : List (String × ℚ)) : List.Perm (sortDescByScore l) l :=
  List.perm_insertionSort scoreGE l

theorem sortDescByScore_pairwise (l : List (String × ℚ)) :
    (sortDescByScore l).Pairwise scoreGE :=
  List.sorted_insertionSort scoreGE l

theorem assign_tiers_eq (team_scores : List (String × ℚ)) (h : team_scores ≠ []) :
    assign_tiers team_scores = some (balanceSpec (sortDescByScore team_scores) 0) := by
  have hlen : (sortDescByScore team_scores).length = team_scores.length :=
    (sortDescByScore_perm team_scores).length_eq
  have hie : ((sortDescByScore team_scores).map Prod.snd).isEmpty = false := by
    rw [List.isEmpty_eq_false]
    simp only [ne_eq, List.map_eq_nil_iff]
    intro e
    rw [e] at hlen
    exact h (List.length_eq_zero.mp hlen.symm)
  simp only [assign_tiers, percentile, hie, Bool.false_eq_true, if_false]
  rw [balance_tiers_eq]

theorem assign_tiers_some_inv {team_scores : List (String × ℚ)}
    {t : List (String × Tier)} (h : assign_tiers team_scores = some t) :
    t = balanceSpec (sortDescByScore team_scores) 0 := by
  rcases eq_or_ne team_scores [] with he | hne
  · subst he
    exact Option.noConfusion ((rfl : assign_tiers [] = none).symm.trans h)
  · rw [assign_tiers_eq team_scores hne] at h
    exact (Option.some_inj.mp h).symm

/-! ## Claims about tier assignment -/

/-- C1: the claim says no entity is ever dropped because the fallback scan
assigns surplus entities to the worst tier with room.  In the code the
fallback re-checks the very same `current_counts[tier] < ideal_distribution[tier]`
condition that already failed for every tier, so with 21 entities the
lowest-scored one receives no tier at all: the returned assignment has only
20 entries and lacks `t21`. -/
theorem C1_rebalance_drops_surplus_entity :
    assign_tiers ex21 = some ex20t ∧ ex20t.length = 20 ∧ ex21.length = 21 ∧
    ("t21", (5 : ℚ)) ∈ ex21 ∧ "t21" ∉ ex20t.map Prod.fst := by
  refine ⟨by decide, by decide, by decide, by decide, by decide⟩

/-- C3 (counterexample): on an empty ScoreMap `assign_tiers` does not return an
empty TierAssignment — `np.percentile` raises on the empty score list
(modelled as `none`), so no assignment at all is returned. -/
theorem C3_empty_scoremap_counterexample :
    assign_tiers ([] : List (String × ℚ)) = none ∧
    (assign_tiers ([] : List (String × ℚ)) = some [] → False) := by
  exact ⟨rfl, fun h => Option.noConfusion ((rfl : assign_tiers [] = none).symm.trans h)⟩

/-- C3 (amended): `calculate_player_scores` returns an empty map on an empty
table and on a table with no row of the requested position, and
`calculate_team_scores` returns an empty map on an empty table, all without
raising; but `assign_tiers` on an empty ScoreMap raises (the percentile of an
empty list), modelled as `none`, instead of returning an empty assignment. -/
theorem C3_empty_inputs_amended :
    (∀ cols position, calculate_player_scores cols [] position = some []) ∧
    (∀ cols rows position, rows.filter (fun p => p.position == position) = [] →
      calculate_player_scores cols rows position = some []) ∧
    calculate_team_scores [] = [] ∧
    assign_tiers ([] : List (String × ℚ)) = none := by
  refine ⟨fun cols position => rfl, ?_, rfl, rfl⟩
  intro cols rows position hfil
  unfold calculate_player_scores
  by_cases he : rows.isEmpty
  · rw [if_pos he]
  · rw [if_neg he, hfil]
    rfl

theorem C3_empty_inputs_amended_witness :
    calculate_player_scores metricCols [exDefender] "Forward" = some [] :=
  C3_empty_inputs_amended.2.1 metricCols [exDefender] "Forward" rfl

/-- C4: when the ScoreMap has exactly 20 entities (with distinct names, as a
dict guarantees), the returned assignment covers exactly those entities, each
once, with per-tier counts 3, 4, 5, 5, 3. -/
theorem C4_exact_target_distribution (team_scores : List (String × ℚ))
    (t : List (String × Tier)) (hlen : team_scores.length = 20)
    (hnd : (team_scores.map Prod.fst).Nodup)
    (h : assign_tiers team_scores = some t) :
    List.Perm (t.map Prod.fst) (team_scores.map Prod.fst) ∧ (t.map Prod.fst).Nodup ∧
    t.countP (fun p => p.2 == Tier.S) = 3 ∧
    t.countP (fun p => p.2 == Tier.A) = 4 ∧
    t.countP (fun p => p.2 == Tier.B) = 5 ∧
    t.countP (fun p => p.2 == Tier.C) = 5 ∧
    t.countP (fun p => p.2 == Tier.D) = 3 := by
  have ht := assign_tiers_some_inv h
  have hperm : List.Perm (sortDescByScore team_scores) team_scores :=
    sortDescByScore_perm team_scores
  have hslen : (sortDescByScore team_scores).length = 20 := by
    rw [hperm.length_eq, hlen]
  have hkeys : t.map Prod.fst = (sortDescByScore team_scores).map Prod.fst := by
    rw [ht]
    exact balanceSpec_keys_of_le (sortDescByScore team_scores) 0 (by omega)
  have hkperm : List.Perm ((sortDescByScore team_scores).map Prod.fst)
      (team_scores.map Prod.fst) := hperm.map Prod.fst
  have hcount : ∀ u : Tier, t.countP (fun p => p.2 == u) =
      idealCounts 20 u - idealCounts 0 u := by
    intro u
    rw [ht, balanceSpec_countP (sortDescByScore team_scores) u 0]
    rw [hslen]
  refine ⟨hkeys ▸ hkperm, ?_, ?_, ?_, ?_, ?_, ?_⟩
  · rw [hkeys]
    exact hkperm.nodup_iff.mpr hnd
  · rw [hcount Tier.S]; rfl
  · rw [hcount Tier.A]; rfl
  · rw [hcount Tier.B]; rfl
  · rw [hcount Tier.C]; rfl
  · rw [hcount Tier.D]; rfl

theorem C4_exact_target_distribution_witness :
    List.Perm (ex20t.map Prod.fst) (ex20.map Prod.fst) ∧ (ex20t.map Prod.fst).Nodup ∧
    ex20t.countP (fun p => p.2 == Tier.S) = 3 ∧
    ex20t.countP (fun p => p.2 == Tier.A) = 4 ∧
    ex20t.countP (fun p => p.2 == Tier.B) = 5 ∧
    ex20t.countP (fun p => p.2 == Tier.C) = 5 ∧
    ex20t.countP (fun p => p.2 == Tier.D) = 3 :=
  C4_exact_target_distribution ex20 ex20t (by decide) (by decide) (by decide)

/-- C7: the percentile first pass never influences the output: whatever
assignment `assign_tiers` returns equals the greedy rebalance pass run alone
on the descending-sorted entities, and `_balance_tiers` gives the same result
for any first-pass labels. -/
theorem C7_first_pass_has_no_effect :
    (∀ tiers1 tiers2 sorted_teams,
      balance_tiers tiers1 sorted_teams = balance_tiers tiers2 sorted_teams) ∧
    (∀ team_scores t, assign_tiers team_scores = some t →
      t = balanceLoop (sortDescByScore team_scores) (fun _ => 0)) := by
  constructor
  · intro t1 t2 s
    rfl
  · intro scores t h
    rw [assign_tiers_some_inv h, ← idealCounts_zero, balanceLoop_eq_balanceSpec]

theorem C7_first_pass_has_no_effect_witness :
    ex20t = balanceLoop (sortDescByScore ex20) (fun _ => 0) :=
  C7_first_pass_has_no_effect.2 ex20 ex20t (by decide)

/-- C9: tier assignment is monotone in score — an entity with a strictly
higher score never lands in a strictly worse tier (S best, D worst). -/
theorem C9_tier_monotone_in_score (team_scores : List (String × ℚ))
    (t : List (String × Tier)) (hnd : (team_scores.map Prod.fst).Nodup)
    (h : assign_tiers team_scores = some t)
    (na : String) (sa : ℚ) (nb : String) (sb : ℚ) (ta tb : Tier)
    (ha : (na, sa) ∈ team_scores) (hb : (nb, sb) ∈ team_scores) (hlt : sb < sa)
    (hta : (na, ta) ∈ t) (htb : (nb, tb) ∈ t) :
    tierRank ta ≤ tierRank tb := by
  have ht := assign_tiers_some_inv h
  have hperm := sortDescByScore_perm team_scores
  exact balanceSpec_rank_le (sortDescByScore team_scores) 0
    ((hperm.map Prod.fst).nodup_iff.mpr hnd)
    (sortDescByScore_pairwise team_scores)
    na sa nb sb ta tb (hperm.mem_iff.mpr ha) (hperm.mem_iff.mpr hb) hlt
    (ht ▸ hta) (ht ▸ htb)

theorem C9_tier_monotone_in_score_witness : tierRank Tier.S ≤ tierRank Tier.D :=
  C9_tier_monotone_in_score ex20 ex20t (by decide) (by decide)
    "t01" 200 "t20" 10 Tier.S Tier.D (by decide) (by decide) (by decide)
    (by decide) (by decide)

/-! ## Bounds for normalization and scores -/

theorem le_listMax {l : List ℚ} {a : ℚ} (h : a ∈ l) : a ≤ listMax l := by
  induction l with
  | nil => simp at h
  | cons x xs ih =>
    cases xs with
    | nil =>
      have : a = x := by simpa using h
      simp [listMax, this]
    | cons y ys =>
      rcases List.mem_cons.mp h with he | ht
      · rw [he]
        exact le_max_left _ _
      · exact le_trans (ih ht) (le_max_right _ _)

theorem listMin_le {l : List ℚ} {a : ℚ} (h : a ∈ l) : listMin l ≤ a := by
  induction l with
  | nil => simp at h
  | cons x xs ih =>
    cases xs with
    | nil =>
      have : a = x := by simpa using h
      simp [listMin, this]
    | cons y ys =>
      rcases List.mem_cons.mp h with he | ht
      · rw [he]
        exact min_le_left _ _
      · exact le_trans (min_le_right _ _) (ih ht)

theorem minmax_formula_bounds {mn mx x : ℚ} (hmn : mn ≤ x) (hmx : x ≤ mx)
    (hne : mx ≠ mn) : 0 ≤ (x - mn) / (mx - mn) * 100 ∧ (x - mn) / (mx - mn) * 100 ≤ 100 := by
  have hlt : mn < mx := (hmn.trans hmx).lt_of_ne (Ne.symm hne)
  have hpos : 0 < mx - mn := by linarith
  have h1 : 0 ≤ (x - mn) / (mx - mn) := div_nonneg (by linarith) (le_of_lt hpos)
  have h2 : (x - mn) / (mx - mn) ≤ 1 := (div_le_one hpos).mpr (by linarith)
  constructor <;> nlinarith

theorem normHigher_bounds {vals : List ℚ} {x : ℚ} (h : x ∈ vals) :
    0 ≤ normHigher vals x ∧ normHigher vals x ≤ 100 := by
  unfold normHigher
  by_cases he : listMax vals = listMin vals
  · rw [if_neg (not_not_intro he)]
    norm_num
  · rw [if_pos he]
    exact minmax_formula_bounds (listMin_le h) (le_listMax h) he

theorem normLower_bounds {vals : List ℚ} {x : ℚ} (h : x ∈ vals) :
    0 ≤ normLower vals x ∧ normLower vals x ≤ 100 := by
  unfold normLower
  by_cases he : listMax vals = listMin vals
  · rw [if_neg (not_not_intro he)]
    norm_num
  · rw [if_pos he]
    have hmn := listMin_le h
    have hmx := le_listMax h
    have hlt : listMin vals < listMax vals := (hmn.trans hmx).lt_of_ne (Ne.symm he)
    have hpos : 0 < listMax vals - listMin vals := by linarith
    have h1 : 0 ≤ (listMax vals - x) / (listMax vals - listMin vals) :=
      div_nonneg (by linarith) (le_of_lt hpos)
    have h2 : (listMax vals - x) / (listMax vals - listMin vals) ≤ 1 :=
      (div_le_one hpos).mpr (by linarith)
    constructor <;> nlinarith

theorem teamScore_bounds {teams : List TeamRow} {t : TeamRow} (h : t ∈ teams) :
    0 ≤ teamScore teams t ∧ teamScore teams t ≤ 100 := by
  have h1 := normLower_bounds (List.mem_map_of_mem (fun r : TeamRow => r.position) h)
  have h2 := normHigher_bounds (List.mem_map_of_mem (fun r : TeamRow => r.goals_for) h)
  have h3 := normLower_bounds (List.mem_map_of_mem (fun r : TeamRow => r.goals_against) h)
  have h4 := normHigher_bounds (List.mem_map_of_mem (fun r : TeamRow => r.possession_avg) h)
  have h5 := normHigher_bounds (List.mem_map_of_mem (fun r : TeamRow => r.pass_accuracy) h)
  have h6 := normHigher_bounds (List.mem_map_of_mem (fun r : TeamRow => r.shots_per_game) h)
  have h7 := normHigher_bounds (List.mem_map_of_mem (fun r : TeamRow => r.clean_sheets) h)
  unfold teamScore
  constructor <;>
    nlinarith [h1.1, h1.2, h2.1, h2.2, h3.1, h3.2, h4.1, h4.2, h5.1, h5.2,
      h6.1, h6.2, h7.1, h7.2]

theorem nanMax_le {vs : List (Option ℚ)} {mx : ℚ} (h : nanMax vs = some mx) :
    ∀ a ∈ vs.filterMap id, a ≤ mx := by
  intro a ha
  unfold nanMax at h
  cases hf : vs.filterMap id with
  | nil => rw [hf] at ha; simp at ha
  | cons x xs =>
    rw [hf] at h ha
    have : mx = listMax (x :: xs) := (Option.some_inj.mp h).symm
    rw [this]
    exact le_listMax ha

theorem nanMin_le {vs : List (Option ℚ)} {mn : ℚ} (h : nanMin vs = some mn) :
    ∀ a ∈ vs.filterMap id, mn ≤ a := by
  intro a ha
  unfold nanMin at h
  cases hf : vs.filterMap id with
  | nil => rw [hf] at ha; simp at ha
  | cons x xs =>
    rw [hf] at h ha
    have : mn = listMin (x :: xs) := (Option.some_inj.mp h).symm
    rw [this]
    exact listMin_le ha

theorem cell_mem_filterMap {group : List PRow} {m : String} {r : PRow} {v : ℚ}
    (hr : r ∈ group) (hc : r.cell m = some v) :
    v ∈ (group.map (fun p => p.cell m)).filterMap id := by
  refine List.mem_filterMap.mpr ⟨some v, ?_, rfl⟩
  have hmem : r.cell m ∈ List.map (fun p => p.cell m) group :=
    List.mem_map_of_mem (fun p => p.cell m) hr
  rw [hc] at hmem
  exact hmem

theorem normVal_bounds {metrics : List String} {group : List PRow} {cols : List String}
    {m : String} {r : PRow} {v : ℚ} (hr : r ∈ group)
    (h : normVal metrics group cols m r = some v) : 0 ≤ v ∧ v ≤ 100 := by
  unfold normVal at h
  by_cases hc : m ∈ metrics ∧ m ∈ cols
  · rw [if_pos hc] at h
    dsimp only at h
    cases hmx : nanMax (group.map fun p => p.cell m) with
    | none =>
      rw [hmx] at h
      cases hmn : nanMin (group.map fun p => p.cell m) with
      | none =>
        rw [hmn] at h
        dsimp only at h
        have : v = 50 := (Option.some_inj.mp h).symm
        rw [this]
        norm_num
      | some mn =>
        rw [hmn] at h
        dsimp only at h
        have : v = 50 := (Option.some_inj.mp h).symm
        rw [this]
        norm_num
    | some mx =>
      rw [hmx] at h
      cases hmn : nanMin (group.map fun p => p.cell m) with
      | none =>
        rw [hmn] at h
        dsimp only at h
        have : v = 50 := (Option.some_inj.mp h).symm
        rw [this]
        norm_num
      | some mn =>
        rw [hmn] at h
        dsimp only at h
        by_cases hcond : mx ≠ mn ∧ mx > 0
        · rw [if_pos hcond] at h
          cases hcell : r.cell m with
          | none => rw [hcell] at h; exact Option.noConfusion h
          | some raw =>
            rw [hcell] at h
            have hv : v = (raw - mn) / (mx - mn) * 100 := (Option.some_inj.mp h).symm
            rw [hv]
            have hmem := cell_mem_filterMap hr hcell
            exact minmax_formula_bounds (nanMin_le hmn raw hmem)
              (nanMax_le hmx raw hmem) hcond.1
        · rw [if_neg hcond] at h
          have : v = 50 := (Option.some_inj.mp h).symm
          rw [this]
          norm_num
  · rw [if_neg hc] at h
    exact Option.noConfusion h

/-! ## The per-player score as a closed formula -/

theorem foldl_playerScoreStep (normOf : String → Option ℚ) :
    ∀ (weights : List (String × ℚ)) (acc : ℚ × ℚ),
    weights.foldl (playerScoreStep normOf) acc =
      (acc.1 + ((weights.filter (fun mw => (normOf mw.1).isSome)).map
          (fun mw => (normOf mw.1).getD 0 * mw.2)).sum,
       acc.2 + ((weights.filter (fun mw => (normOf mw.1).isSome)).map Prod.snd).sum) := by
  intro weights
  induction weights with
  | nil => intro acc; simp
  | cons mw rest ih =>
    intro acc
    rw [List.foldl_cons, ih]
    cases hn : normOf mw.1 with
    | some v =>
      have hstep : playerScoreStep normOf acc mw = (acc.1 + v * mw.2, acc.2 + mw.2) := by
        unfold playerScoreStep
        rw [hn]
      have hfil : (mw :: rest).filter (fun mw => (normOf mw.1).isSome) =
          mw :: rest.filter (fun mw => (normOf mw.1).isSome) :=
        List.filter_cons_of_pos (by rw [hn]; rfl)
      rw [hstep, hfil]
      simp only [List.map_cons, List.sum_cons, hn, Option.getD_some]
      rw [Prod.mk.injEq]
      constructor <;> ring
    | none =>
      have hstep : playerScoreStep normOf acc mw = acc := by
        unfold playerScoreStep
        rw [hn]
      have hfil : (mw :: rest).filter (fun mw => (normOf mw.1).isSome) =
          rest.filter (fun mw => (normOf mw.1).isSome) :=
        List.filter_cons_of_neg (by rw [hn]; simp)
      rw [hstep, hfil]

theorem playerScore_eq (weights : List (String × ℚ)) (normOf : String → Option ℚ) :
    playerScore weights normOf =
      (let used := weights.filter (fun mw => (normOf mw.1).isSome)
       let tw := (used.map Prod.snd).sum
       let s := (used.map (fun mw => (normOf mw.1).getD 0 * mw.2)).sum
       if 0 < tw then s / tw * 100 else s) := by
  unfold playerScore
  rw [foldl_playerScoreStep]
  dsimp only
  rw [zero_add, zero_add]

theorem playerScore_bounds {weights : List (String × ℚ)} {normOf : String → Option ℚ}
    (hw : ∀ mw ∈ weights, 0 ≤ mw.2)
    (hn : ∀ m v, normOf m = some v → 0 ≤ v ∧ v ≤ 100) :
    0 ≤ playerScore weights normOf ∧ playerScore weights normOf ≤ 10000 := by
  rw [playerScore_eq]
  dsimp only
  have hterm : ∀ mw ∈ weights.filter (fun mw => (normOf mw.1).isSome),
      0 ≤ (normOf mw.1).getD 0 * mw.2 ∧ (normOf mw.1).getD 0 * mw.2 ≤ 100 * mw.2 := by
    intro mw hmw
    have hmem := List.mem_of_mem_filter hmw
    have hsome := List.of_mem_filter hmw
    obtain ⟨v, hv⟩ := Option.isSome_iff_exists.mp (by simpa using hsome)
    have hvb := hn mw.1 v hv
    have hwb := hw mw hmem
    rw [hv, Option.getD_some]
    constructor
    · exact mul_nonneg hvb.1 hwb
    · exact mul_le_mul_of_nonneg_right hvb.2 hwb
  have htw : 0 ≤ ((weights.filter (fun mw => (normOf mw.1).isSome)).map Prod.snd).sum := by
    apply List.sum_nonneg
    intro a ha
    obtain ⟨mw, hmw, heq⟩ := List.mem_map.mp ha
    rw [← heq]
    exact hw mw (List.mem_of_mem_filter hmw)
  have hs0 : 0 ≤ ((weights.filter (fun mw => (normOf mw.1).isSome)).map
      (fun mw => (normOf mw.1).getD 0 * mw.2)).sum := by
    apply List.sum_nonneg
    intro a ha
    obtain ⟨mw, hmw, heq⟩ := List.mem_map.mp ha
    rw [← heq]
    exact (hterm mw hmw).1
  have hs1 : ((weights.filter (fun mw => (normOf mw.1).isSome)).map
      (fun mw => (normOf mw.1).getD 0 * mw.2)).sum ≤
      100 * ((weights.filter (fun mw => (normOf mw.1).isSome)).map Prod.snd).sum := by
    calc ((weights.filter (fun mw => (normOf mw.1).isSome)).map
        (fun mw => (normOf mw.1).getD 0 * mw.2)).sum
        ≤ ((weights.filter (fun mw => (normOf mw.1).isSome)).map
          (fun mw => 100 * mw.2)).sum :=
          List.sum_le_sum (fun mw hmw => (hterm mw hmw).2)
      _ = 100 * ((weights.filter (fun mw => (normOf mw.1).isSome)).map Prod.snd).sum := by
          rw [← List.sum_map_mul_left]
  by_cases hpos : 0 < ((weights.filter (fun mw => (normOf mw.1).isSome)).map Prod.snd).sum
  · rw [if_pos hpos]
    constructor
    · positivity
    · rw [div_mul_eq_mul_div, div_le_iff₀ hpos]
      nlinarith
  · rw [if_neg hpos]
    have hz : ((weights.filter (fun mw => (normOf mw.1).isSome)).map Prod.snd).sum = 0 := by
      linarith [not_lt.mp hpos]
    constructor
    · exact hs0
    · nlinarith [hs1, hz]

/-! ## Position-weight facts and scorer inversion -/

theorem position_weights_cases (position : String) :
    (position_weights position).getD forwardWeights = forwardWeights ∨
    (position_weights position).getD forwardWeights = midfielderWeights ∨
    (position_weights position).getD forwardWeights = defenderWeights ∨
    (position_weights position).getD forwardWeights = goalkeeperWeights := by
  unfold position_weights
  split <;> simp

theorem position_weights_nonneg (position : String) :
    ∀ mw ∈ (position_weights position).getD forwardWeights, 0 ≤ mw.2 := by
  rcases position_weights_cases position with h | h | h | h <;> rw [h] <;>
    intro mw hmw <;> fin_cases hmw <;>
    norm_num [forwardWeights, midfielderWeights, defenderWeights, goalkeeperWeights]

theorem calculate_player_scores_inv {cols : List String} {rows : List PRow}
    {position : String} {l : List (String × ℚ)}
    (h : calculate_player_scores cols rows position = some l) :
    l = [] ∨
    ∃ pw, position_weights position = some pw ∧
      l = (rows.filter (fun p => p.position == position)).map (fun r =>
        (r.name, playerScore pw
          (fun m => normVal (pw.map Prod.fst)
            (rows.filter (fun p => p.position == position)) cols m r))) := by
  unfold calculate_player_scores at h
  by_cases h1 : rows.isEmpty
  · rw [if_pos h1] at h
    left
    exact (Option.some_inj.mp h).symm
  · rw [if_neg h1] at h
    by_cases h2 : (rows.filter (fun p => p.position == position)).isEmpty
    · rw [if_pos h2] at h
      left
      exact (Option.some_inj.mp h).symm
    · rw [if_neg h2] at h
      cases hpw : position_weights position with
      | none =>
        rw [hpw] at h
        exact Option.noConfusion h
      | some pw =>
        rw [hpw] at h
        simp only [Option.getD_some] at h
        right
        exact ⟨pw, rfl, (Option.some_inj.mp h).symm⟩

/-! ## Claims about score ranges and the player scorer -/

/-- C2 (counterexample): player scores are not confined to [0,100] — a forward
who leads the two-player group on every metric scores
100·(weighted mean of 100s) = 10000, because the code divides by the used
weight and then multiplies by 100 again. -/
theorem C2_score_range_counterexample :
    calculate_player_scores metricCols [exQ1, exQ2] "Forward" =
      some [("q1", 0), ("q2", 10000)] ∧ ¬ ((10000 : ℚ) ≤ 100) := by
  constructor
  · norm_num [calculate_player_scores, playerScore, playerScoreStep, normVal, nanMax, nanMin,
      listMax, listMin, position_weights, forwardWeights, metricCols, exQ1, exQ2, exCell,
      List.filter, List.foldl, List.filterMap]
  · norm_num

/-- C2 (amended): every team score lies in [0,100] (the team weights sum to 1),
while every player score lies in [0,10000] (the weighted mean of [0,100]
normalized values is rescaled by a factor of 100). -/
theorem C2_amended_score_ranges :
    (∀ teams name s, (name, s) ∈ calculate_team_scores teams → 0 ≤ s ∧ s ≤ 100) ∧
    (∀ cols rows position l name s,
      calculate_player_scores cols rows position = some l → (name, s) ∈ l →
      0 ≤ s ∧ s ≤ 10000) := by
  constructor
  · intro teams name s hmem
    obtain ⟨t, ht, heq⟩ := List.mem_map.mp hmem
    have hs : s = teamScore teams t := (congrArg Prod.snd heq).symm
    rw [hs]
    exact teamScore_bounds ht
  · intro cols rows position l name s hcs hmem
    rcases calculate_player_scores_inv hcs with he | ⟨pw, hpw, hl⟩
    · rw [he] at hmem
      simp at hmem
    · rw [hl] at hmem
      obtain ⟨r, hr, heq⟩ := List.mem_map.mp hmem
      have hs : s = playerScore pw
          (fun m => normVal (pw.map Prod.fst)
            (rows.filter (fun p => p.position == position)) cols m r) :=
        (congrArg Prod.snd heq).symm
      rw [hs]
      apply playerScore_bounds
      · intro mw hmw
        have hnn := position_weights_nonneg position
        rw [hpw] at hnn
        simp only [Option.getD_some] at hnn
        exact hnn mw hmw
      · intro m v hv
        exact normVal_bounds hr hv

theorem C2_amended_score_ranges_witness :
    (0 ≤ (50 : ℚ) ∧ (50 : ℚ) ≤ 100) ∧ (0 ≤ (10000 : ℚ) ∧ (10000 : ℚ) ≤ 10000) :=
  ⟨C2_amended_score_ranges.1 [exTeamRow] "mad" 50
    (by norm_num [calculate_team_scores, teamScore, normHigher, normLower,
      listMax, listMin, exTeamRow]),
   C2_amended_score_ranges.2 metricCols [exQ1, exQ2] "Forward"
    [("q1", 0), ("q2", 10000)] "q2" 10000
    (by norm_num [calculate_player_scores, playerScore, playerScoreStep, normVal, nanMax,
      nanMin, listMax, listMin, position_weights, forwardWeights, metricCols, exQ1, exQ2,
      exCell, List.filter, List.foldl, List.filterMap])
    (by norm_num)⟩

/-- C8: the claim says an unknown category falls back to the Forward weights
and returns scores.  In the code `calculate_player_scores` does take the
Forward fallback via `.get`, but it then calls `_normalize_position_metrics`,
which indexes `self.position_weights[position]` directly and raises `KeyError`
(modelled as `none`) before any score is produced: a non-empty group of an
unknown position fails instead of being scored. -/
theorem C8_unknown_position_raises :
    position_weights "Winger" = none ∧
    calculate_player_scores metricCols [exWinger] "Winger" = none ∧
    (∀ l, calculate_player_scores metricCols [exWinger] "Winger" = some l → False) := by
  refine ⟨rfl, rfl, ?_⟩
  intro l h
  exact Option.noConfusion ((rfl :
    calculate_player_scores metricCols [exWinger] "Winger" = none).symm.trans h)

/-- C6 (counterexample): a metric that is undefined (NaN) for an entity is NOT
always skipped.  Player p2 has a NaN `goals` cell, and the group's only other
goals value makes the column degenerate (max = min = 3), so the 50-midpoint is
written for every row including p2: p2's score is 8000, not the 10000 that the
claim's present-metrics-only formula prescribes, so the score does depend on
the weight of a metric p2 does not have. -/
theorem C6_missing_metric_counterexample :
    exP2.cell "goals" = none ∧
    calculate_player_scores metricCols [exP1, exP2] "Forward" =
      some [("p1", 2000), ("p2", 8000)] ∧
    claimC6Score forwardWeights metricCols [exP1, exP2] exP2 = 10000 ∧
    ((8000 : ℚ) = 10000 → False) := by
  refine ⟨rfl, ?_, ?_, by norm_num⟩
  · norm_num [calculate_player_scores, playerScore, playerScoreStep, normVal, nanMax, nanMin,
      listMax, listMin, position_weights, forwardWeights, metricCols, exP1, exP2, exCell,
      List.filter, List.foldl, List.filterMap]
  · norm_num [claimC6Score, normVal, nanMax, nanMin, listMax, listMin, forwardWeights,
      metricCols, exP1, exP2, exCell, List.filter, List.filterMap]

/-- C6 (amended): the player score is the renormalized weighted sum over the
metrics whose NORMALIZED value is defined: `sum(w·norm)/sum(w)·100` when some
weight was used, and the raw accumulated sum (0) otherwise; a metric column
absent from the table has no normalized value, so it contributes nothing and
the score is independent of its weight; an entity with no contributing metric
scores 0; and every entity of a non-empty position group is scored by this
same rule (one batch entry per row).  The claim's stronger reading — that a
NaN raw cell is always skipped — fails only in the degenerate-column branch,
where the scalar 50 is written for every row (see the counterexample). -/
theorem C6_weighted_renormalization_amended :
    (∀ weights normOf, playerScore weights normOf =
      (let used := weights.filter (fun mw => (normOf mw.1).isSome)
       let tw := (used.map Prod.snd).sum
       let s := (used.map (fun mw => (normOf mw.1).getD 0 * mw.2)).sum
       if 0 < tw then s / tw * 100 else s)) ∧
    (∀ weights normOf, (∀ mw ∈ weights, normOf mw.1 = none) →
      playerScore weights normOf = 0) ∧
    (∀ metrics group cols m r, m ∉ cols → normVal metrics group cols m r = none) ∧
    (∀ cols rows position pw, position_weights position = some pw →
      ¬ rows.isEmpty = true → ¬ (rows.filter (fun p => p.position == position)).isEmpty = true →
      calculate_player_scores cols rows position =
        some ((rows.filter (fun p => p.position == position)).map (fun r =>
          (r.name, playerScore pw (fun m =>
            normVal (pw.map Prod.fst) (rows.filter (fun p => p.position == position))
              cols m r))))) := by
  refine ⟨playerScore_eq, ?_, ?_, ?_⟩
  · intro weights normOf hall
    rw [playerScore_eq]
    dsimp only
    have hfil : weights.filter (fun mw => (normOf mw.1).isSome) = [] := by
      rw [List.filter_eq_nil_iff]
      intro mw hmw
      rw [hall mw hmw]
      simp
    rw [hfil]
    simp
  · intro metrics group cols m r hm
    unfold normVal
    rw [if_neg (fun hc => hm hc.2)]
  · intro cols rows position pw hpw h1 h2
    unfold calculate_player_scores
    rw [if_neg h1, if_neg h2, hpw]
    simp only [Option.getD_some]

theorem C6_weighted_renormalization_amended_witness :
    playerScore forwardWeights (fun _ => none) = 0 ∧
    normVal (forwardWeights.map Prod.fst) [exP1, exP2] metricCols "saves" exP1 = none ∧
    calculate_player_scores metricCols [exP1, exP2] "Forward" =
      some (([exP1, exP2].filter (fun p => p.position == "Forward")).map (fun r =>
        (r.name, playerScore forwardWeights (fun m =>
          normVal (forwardWeights.map Prod.fst)
            ([exP1, exP2].filter (fun p => p.position == "Forward")) metricCols m r)))) :=
  ⟨C6_weighted_renormalization_amended.2.1 forwardWeights (fun _ => none)
    (fun _ _ => rfl),
   C6_weighted_renormalization_amended.2.2.1 (forwardWeights.map Prod.fst)
    [exP1, exP2] metricCols "saves" exP1 (by decide),
   C6_weighted_renormalization_amended.2.2.2 metricCols [exP1, exP2] "Forward"
    forwardWeights rfl (by decide) (by decide)⟩

/-! ## The normalizers against the reference definition -/

theorem filterMap_all_some {group : List PRow} {m : String}
    (hall : ∀ p ∈ group, (p.cell m).isSome) :
    (group.map (fun p => p.cell m)).filterMap id =
      group.map (fun p => (p.cell m).getD 0) := by
  induction group with
  | nil => rfl
  | cons p rest ih =>
    have hp := hall p (List.mem_cons_self p rest)
    obtain ⟨v, hv⟩ := Option.isSome_iff_exists.mp hp
    simp only [List.map_cons, List.filterMap_cons, id, hv, Option.getD_some]
    rw [ih (fun q hq => hall q (List.mem_cons_of_mem p hq))]

theorem nanMax_all_some {group : List PRow} {m : String} (hne : group ≠ [])
    (hall : ∀ p ∈ group, (p.cell m).isSome) :
    nanMax (group.map (fun p => p.cell m)) =
      some (listMax (group.map (fun p => (p.cell m).getD 0))) := by
  cases group with
  | nil => exact absurd rfl hne
  | cons p rest =>
    unfold nanMax
    rw [filterMap_all_some hall]
    rfl

theorem nanMin_all_some {group : List PRow} {m : String} (hne : group ≠ [])
    (hall : ∀ p ∈ group, (p.cell m).isSome) :
    nanMin (group.map (fun p => p.cell m)) =
      some (listMin (group.map (fun p => (p.cell m).getD 0))) := by
  cases group with
  | nil => exact absurd rfl hne
  | cons p rest =>
    unfold nanMin
    rw [filterMap_all_some hall]
    rfl

/-- C5 (counterexample): the player normalizer is not the spec's reference
normalizer.  On the NaN-free group with goals −2 and −1 the maximum (−1)
differs from the minimum (−2), so the reference formula sends the lowest value
to 0 and the highest to 100, but the code's extra `max_val > 0` guard fails
and every entity gets 50 instead. -/
theorem C5_normalizer_counterexample :
    normVal ["goals"] [exG1, exG2] ["goals"] "goals" exG2 = some 50 ∧
    listMax [(-2 : ℚ), -1] ≠ listMin [(-2 : ℚ), -1] ∧
    specNormalize true [(-2 : ℚ), -1] (-1) = 100 ∧
    ((50 : ℚ) = 100 → False) := by
  refine ⟨by decide, by decide, ?_, by norm_num⟩
  norm_num [specNormalize, listMax, listMin]

/-- C5 (amended): the team normalizer equals the spec's reference normalizer
for both polarities; the player normalizer agrees with it on every NaN-free
group with a positive maximum, but its formula branch additionally requires
`max > 0` — when the group maximum is non-positive and the values are not all
equal, the code yields 50 where the reference yields the min-max formula. -/
theorem C5_normalizer_amended :
    (∀ vals x, normHigher vals x = specNormalize true vals x) ∧
    (∀ vals x, normLower vals x = specNormalize false vals x) ∧
    (∀ metrics group cols m r raw, m ∈ metrics → m ∈ cols → group ≠ [] →
      (∀ p ∈ group, (p.cell m).isSome) → r.cell m = some raw →
      normVal metrics group cols m r =
        some (if listMax (group.map (fun p => (p.cell m).getD 0)) ≠
                listMin (group.map (fun p => (p.cell m).getD 0)) ∧
              0 < listMax (group.map (fun p => (p.cell m).getD 0))
          then specNormalize true (group.map (fun p => (p.cell m).getD 0)) raw
          else 50)) := by
  refine ⟨?_, ?_, ?_⟩
  · intro vals x
    unfold normHigher specNormalize
    by_cases h : listMax vals = listMin vals
    · rw [if_neg (not_not_intro h), if_pos h]
    · rw [if_pos h, if_neg h, if_pos rfl]
  · intro vals x
    unfold normLower specNormalize
    by_cases h : listMax vals = listMin vals
    · rw [if_neg (not_not_intro h), if_pos h]
    · rw [if_pos h, if_neg h, if_neg (by simp)]
  · intro metrics group cols m r raw hm hc hne hall hcell
    unfold normVal
    rw [if_pos ⟨hm, hc⟩]
    dsimp only
    rw [nanMax_all_some hne hall, nanMin_all_some hne hall]
    dsimp only
    by_cases hcond : listMax (group.map (fun p => (p.cell m).getD 0)) ≠
        listMin (group.map (fun p => (p.cell m).getD 0)) ∧
        0 < listMax (group.map (fun p => (p.cell m).getD 0))
    · rw [if_pos hcond, if_pos ⟨hcond.1, hcond.2⟩, hcell]
      unfold specNormalize
      rw [if_neg hcond.1]
      rfl
    · rw [if_neg hcond, if_neg (fun h2 => hcond ⟨h2.1, h2.2⟩)]

theorem C5_normalizer_amended_witness :
    normVal ["goals"] [exG1, exG2] ["goals"] "goals" exG2 =
      some (if listMax ([exG1, exG2].map (fun p => (p.cell "goals").getD 0)) ≠
              listMin ([exG1, exG2].map (fun p => (p.cell "goals").getD 0)) ∧
            0 < listMax ([exG1, exG2].map (fun p => (p.cell "goals").getD 0))
        then specNormalize true ([exG1, exG2].map (fun p => (p.cell "goals").getD 0)) (-1)
        else 50) :=
  C5_normalizer_amended.2.2 ["goals"] [exG1, exG2] ["goals"] "goals" exG2 (-1)
    (by decide) (by decide) (List.cons_ne_nil _ _) (by decide) rfl

/-! ## Two-player comparison machinery -/

theorem filter_pair_pos {p1 p2 : PRow} {pos : String} (h1 : p1.position = pos)
    (h2 : p2.position = pos) :
    [p1, p2].filter (fun p => p.position == pos) = [p1, p2] := by
  rw [List.filter_cons_of_pos (by simp [h1]), List.filter_cons_of_pos (by simp [h2])]
  rfl

theorem normVal_pair_none {metrics cols : List String} {m : String} (p1 p2 r : PRow)
    (hc : ¬ (m ∈ metrics ∧ m ∈ cols)) :
    normVal metrics [p1, p2] cols m r = none := by
  unfold normVal
  rw [if_neg hc]

/-- Evaluation of the two-player normalizer when both raw cells are present. -/
theorem normVal_eval_pair (metrics cols : List String) (m : String) (p1 p2 r : PRow)
    {v1 v2 vr : ℚ} (hm : m ∈ metrics) (hc : m ∈ cols)
    (h1 : p1.cell m = some v1) (h2 : p2.cell m = some v2) (hr : r.cell m = some vr) :
    normVal metrics [p1, p2] cols m r =
      (if max v1 v2 ≠ min v1 v2 ∧ max v1 v2 > 0
       then some ((vr - min v1 v2) / (max v1 v2 - min v1 v2) * 100)
       else some 50) := by
  unfold normVal
  rw [if_pos ⟨hm, hc⟩]
  dsimp only
  rw [show [p1, p2].map (fun p => p.cell m) = [some v1, some v2] by simp [h1, h2]]
  rw [show nanMax [some v1, some v2] = some (max v1 v2) from rfl,
    show nanMin [some v1, some v2] = some (min v1 v2) from rfl]
  dsimp only
  by_cases hcond : max v1 v2 ≠ min v1 v2 ∧ max v1 v2 > 0
  · rw [if_pos hcond, if_pos hcond, hr]
    rfl
  · rw [if_neg hcond, if_neg hcond]

/-- In a two-player group with both raw cells present and non-negative, the
normalized pair is (100, 0), (0, 100) or (50, 50) according to which player is
ahead, so the difference of the two normalized values is 100 times the
ahead-pattern. -/
theorem normVal_pair_some {metrics cols : List String} {m : String} {p1 p2 : PRow}
    (hm : m ∈ metrics) (hc : m ∈ cols)
    {v1 v2 : ℚ} (h1 : p1.cell m = some v1) (h2 : p2.cell m = some v2)
    (hn1 : 0 ≤ v1) (hn2 : 0 ≤ v2) :
    ∃ n1 n2, normVal metrics [p1, p2] cols m p1 = some n1 ∧
      normVal metrics [p1, p2] cols m p2 = some n2 ∧
      n1 - n2 = 100 * (aheadOn p1 p2 m : ℚ) := by
  have hpat : aheadOn p1 p2 m = if v2 < v1 then 1 else if v1 < v2 then -1 else 0 := by
    unfold aheadOn
    rw [h1, h2]
    rfl
  have e1 := normVal_eval_pair metrics cols m p1 p2 p1 hm hc h1 h2 h1
  have e2 := normVal_eval_pair metrics cols m p1 p2 p2 hm hc h1 h2 h2
  by_cases heq : v1 = v2
  · have hmm : max v1 v2 = min v1 v2 := by rw [heq, max_self, min_self]
    rw [if_neg (fun hco : max v1 v2 ≠ min v1 v2 ∧ max v1 v2 > 0 => hco.1 hmm)] at e1 e2
    refine ⟨50, 50, e1, e2, ?_⟩
    rw [hpat, if_neg (by rw [heq]; exact lt_irrefl v2),
      if_neg (by rw [heq]; exact lt_irrefl v2)]
    norm_num
  · have hne : max v1 v2 ≠ min v1 v2 := by
      rcases lt_or_gt_of_ne heq with hlt | hgt
      · rw [max_eq_right hlt.le, min_eq_left hlt.le]
        exact fun e => heq e.symm
      · rw [max_eq_left hgt.le, min_eq_right hgt.le]
        exact heq
    have hpos : max v1 v2 > 0 := by
      rcases lt_or_gt_of_ne heq with hlt | hgt
      · exact lt_of_le_of_lt hn1 (lt_of_lt_of_le hlt (le_max_right v1 v2))
      · exact lt_of_le_of_lt hn2 (lt_of_lt_of_le hgt (le_max_left v1 v2))
    rw [if_pos ⟨hne, hpos⟩] at e1 e2
    refine ⟨_, _, e1, e2, ?_⟩
    rcases lt_or_gt_of_ne heq with hlt | hgt
    · -- v1 < v2 : p2 is ahead
      have hmx : max v1 v2 = v2 := max_eq_right hlt.le
      have hmn : min v1 v2 = v1 := min_eq_left hlt.le
      rw [hpat, if_neg (not_lt.mpr hlt.le), if_pos hlt, hmx, hmn]
      have hnz : v2 - v1 ≠ 0 := by
        intro e
        exact heq (by linarith)
      field_simp
    · -- v2 < v1 : p1 is ahead
      have hmx : max v1 v2 = v1 := max_eq_left hgt.le
      have hmn : min v1 v2 = v2 := min_eq_right hgt.le
      rw [hpat, if_pos hgt, hmx, hmn]
      have hnz : v1 - v2 ≠ 0 := by
        intro e
        exact heq (by linarith)
      field_simp

theorem sum_diff_pattern (pat : String → Int) :
    ∀ (F : List (String × ℚ)) (n1 n2 : String → ℚ),
    (∀ mw ∈ F, n1 mw.1 - n2 mw.1 = 100 * (pat mw.1 : ℚ)) →
    (F.map (fun mw => n1 mw.1 * mw.2)).sum - (F.map (fun mw => n2 mw.1 * mw.2)).sum =
      100 * (F.map (fun mw => mw.2 * (pat mw.1 : ℚ))).sum := by
  intro F
  induction F with
  | nil => intro n1 n2 _; simp
  | cons mw rest ih =>
    intro n1 n2 h
    simp only [List.map_cons, List.sum_cons]
    have hd := h mw (List.mem_cons_self mw rest)
    have ht := ih n1 n2 (fun x hx => h x (List.mem_cons_of_mem mw hx))
    linear_combination mw.2 * hd + ht

theorem foldl_add_sum (pat : String → Int) :
    ∀ (F : List (String × ℚ)) (a : ℚ),
    F.foldl (fun acc mw => acc + mw.2 * (pat mw.1 : ℚ)) a =
      a + (F.map (fun mw => mw.2 * (pat mw.1 : ℚ))).sum := by
  intro F
  induction F with
  | nil => intro a; simp
  | cons mw rest ih =>
    intro a
    simp only [List.foldl_cons, List.map_cons, List.sum_cons]
    rw [ih]
    ring

/-- Every normalized value of a two-player group is 0, 50 or 100. -/
theorem normVal_pair_tri {metrics cols : List String} {m : String} {p1 p2 r : PRow} {v : ℚ}
    (hr : r = p1 ∨ r = p2)
    (h : normVal metrics [p1, p2] cols m r = some v) : v = 0 ∨ v = 50 ∨ v = 100 := by
  by_cases hc : m ∈ metrics ∧ m ∈ cols
  case neg =>
    rw [normVal_pair_none p1 p2 r hc] at h
    exact Option.noConfusion h
  cases hc1 : p1.cell m with
  | none =>
    have h50 : normVal metrics [p1, p2] cols m r = some 50 := by
      unfold normVal
      rw [if_pos hc]
      dsimp only
      rw [show [p1, p2].map (fun p => p.cell m) = [p1.cell m, p2.cell m] from rfl, hc1]
      cases hc2 : p2.cell m with
      | none => rfl
      | some b =>
        rw [show nanMax [none, some b] = some (listMax [b]) from rfl,
          show nanMin [none, some b] = some (listMin [b]) from rfl]
        dsimp only
        rw [if_neg (fun hco : listMax [b] ≠ listMin [b] ∧ listMax [b] > 0 => hco.1 rfl)]
    right
    left
    exact (Option.some_inj.mp (h50.symm.trans h)).symm
  | some a =>
    cases hc2 : p2.cell m with
    | none =>
      have h50 : normVal metrics [p1, p2] cols m r = some 50 := by
        unfold normVal
        rw [if_pos hc]
        dsimp only
        rw [show [p1, p2].map (fun p => p.cell m) = [p1.cell m, p2.cell m] from rfl, hc1, hc2]
        rw [show nanMax [some a, none] = some (listMax [a]) from rfl,
          show nanMin [some a, none] = some (listMin [a]) from rfl]
        dsimp only
        rw [if_neg (fun hco : listMax [a] ≠ listMin [a] ∧ listMax [a] > 0 => hco.1 rfl)]
      right
      left
      exact (Option.some_inj.mp (h50.symm.trans h)).symm
    | some b =>
      rcases hr with hr | hr
      · subst hr
        rw [normVal_eval_pair metrics cols m r p2 r hc.1 hc.2 hc1 hc2 hc1] at h
        by_cases hcond : max a b ≠ min a b ∧ max a b > 0
        · rw [if_pos hcond] at h
          have hv : v = (a - min a b) / (max a b - min a b) * 100 :=
            (Option.some_inj.mp h).symm
          rcases le_or_lt a b with hab | hba
          · left
            rw [hv, min_eq_left hab, sub_self, zero_div, zero_mul]
          · right
            right
            rw [hv, max_eq_left hba.le, min_eq_right hba.le,
              div_self (ne_of_gt (sub_pos.mpr hba)), one_mul]
        · rw [if_neg hcond] at h
          right
          left
          exact (Option.some_inj.mp h).symm
      · subst hr
        rw [normVal_eval_pair metrics cols m p1 r r hc.1 hc.2 hc1 hc2 hc2] at h
        by_cases hcond : max a b ≠ min a b ∧ max a b > 0
        · rw [if_pos hcond] at h
          have hv : v = (b - min a b) / (max a b - min a b) * 100 :=
            (Option.some_inj.mp h).symm
          rcases le_or_lt b a with hba | hab
          · left
            rw [hv, min_eq_right hba, sub_self, zero_div, zero_mul]
          · right
            right
            rw [hv, max_eq_right hab.le, min_eq_left hab.le,
              div_self (ne_of_gt (sub_pos.mpr hab)), one_mul]
        · rw [if_neg hcond] at h
          right
          left
          exact (Option.some_inj.mp h).symm

theorem calculate_player_scores_pos {cols : List String} {rows : List PRow}
    {position : String} {pw : List (String × ℚ)}
    (hpw : position_weights position = some pw)
    (h1 : ¬ rows.isEmpty = true)
    (h2 : ¬ (rows.filter (fun p => p.position == position)).isEmpty = true) :
    calculate_player_scores cols rows position =
      some ((rows.filter (fun p => p.position == position)).map (fun r =>
        (r.name, playerScore pw (fun m =>
          normVal (pw.map Prod.fst) (rows.filter (fun p => p.position == position))
            cols m r)))) := by
  unfold calculate_player_scores
  rw [if_neg h1, if_neg h2, hpw]
  simp only [Option.getD_some]

/-- The reported winner of a head-to-head comparison between distinct,
NaN-free, non-negative players is a function of the ahead-pattern and the
position weights alone. -/
theorem compare_players_pattern {cols : List String} {p1 p2 : PRow} {s1 s2 : ℚ} {w : String}
    (hname : p1.name ≠ p2.name)
    (hpres : ∀ m ∈ cols, (p1.cell m).isSome ∧ (p2.cell m).isSome)
    (hnn1 : ∀ m x, p1.cell m = some x → 0 ≤ x)
    (hnn2 : ∀ m x, p2.cell m = some x → 0 ≤ x)
    (h : compare_players cols p1 p2 = some (s1, s2, w)) :
    w = winnerFromPattern ((position_weights p1.position).getD forwardWeights) cols
      (aheadOn p1 p2) p1.name p2.name := by
  unfold compare_players at h
  by_cases hpos : p1.position ≠ p2.position
  · rw [if_pos hpos] at h
    exact Option.noConfusion h
  rw [if_neg hpos] at h
  have hpp : p2.position = p1.position := (not_ne_iff.mp hpos).symm
  have hfil : [p1, p2].filter (fun p => p.position == p1.position) = [p1, p2] :=
    filter_pair_pos rfl hpp
  cases hpw : position_weights p1.position with
  | none =>
    have hcalc : calculate_player_scores cols [p1, p2] p1.position = none := by
      unfold calculate_player_scores
      rw [if_neg (by simp), hfil, if_neg (by simp), hpw]
    rw [hcalc] at h
    exact Option.noConfusion h
  | some pw =>
    have hgetD : (position_weights p1.position).getD forwardWeights = pw := by
      rw [hpw]
      rfl
    have hcalc := @calculate_player_scores_pos cols [p1, p2] p1.position pw hpw
      (by simp) (by rw [hfil]; simp)
    rw [hfil] at hcalc
    simp only [List.map_cons, List.map_nil] at hcalc
    rw [hcalc] at h
    dsimp only at h
    have hlook1 : List.lookup p1.name
        [(p1.name, playerScore pw (fun m => normVal (pw.map Prod.fst) [p1, p2] cols m p1)),
         (p2.name, playerScore pw (fun m => normVal (pw.map Prod.fst) [p1, p2] cols m p2))] =
        some (playerScore pw (fun m => normVal (pw.map Prod.fst) [p1, p2] cols m p1)) := by
      simp [List.lookup]
    have hlook2 : List.lookup p2.name
        [(p1.name, playerScore pw (fun m => normVal (pw.map Prod.fst) [p1, p2] cols m p1)),
         (p2.name, playerScore pw (fun m => normVal (pw.map Prod.fst) [p1, p2] cols m p2))] =
        some (playerScore pw (fun m => normVal (pw.map Prod.fst) [p1, p2] cols m p2)) := by
      simp [List.lookup, beq_eq_false_iff_ne.mpr (Ne.symm hname)]
    rw [hlook1, hlook2] at h
    simp only [Option.getD_some] at h
    have htrip := Option.some_inj.mp h
    have hw : w = (if playerScore pw (fun m => normVal (pw.map Prod.fst) [p1, p2] cols m p1)
          > playerScore pw (fun m => normVal (pw.map Prod.fst) [p1, p2] cols m p2)
        then p1.name
        else if playerScore pw (fun m => normVal (pw.map Prod.fst) [p1, p2] cols m p2)
          > playerScore pw (fun m => normVal (pw.map Prod.fst) [p1, p2] cols m p1)
        then p2.name else "Draw") :=
      (congrArg (fun x : ℚ × ℚ × String => x.2.2) htrip).symm
    -- the contributing metrics are those of the weight map that are table columns
    have hfeq1 : pw.filter (fun mw =>
        (normVal (pw.map Prod.fst) [p1, p2] cols mw.1 p1).isSome) =
        pw.filter (fun mw => decide (mw.1 ∈ cols)) := by
      apply List.filter_congr
      intro mw hmw
      by_cases hmc : mw.1 ∈ cols
      · obtain ⟨v1, hv1⟩ := Option.isSome_iff_exists.mp (hpres mw.1 hmc).1
        obtain ⟨v2, hv2⟩ := Option.isSome_iff_exists.mp (hpres mw.1 hmc).2
        obtain ⟨n1, n2, e1, e2, hd⟩ := normVal_pair_some
          (List.mem_map_of_mem Prod.fst hmw) hmc hv1 hv2
          (hnn1 mw.1 v1 hv1) (hnn2 mw.1 v2 hv2)
        rw [e1]
        simp [hmc]
      · rw [normVal_pair_none p1 p2 p1 (fun hc => hmc hc.2)]
        simp [hmc]
    have hfeq2 : pw.filter (fun mw =>
        (normVal (pw.map Prod.fst) [p1, p2] cols mw.1 p2).isSome) =
        pw.filter (fun mw => decide (mw.1 ∈ cols)) := by
      apply List.filter_congr
      intro mw hmw
      by_cases hmc : mw.1 ∈ cols
      · obtain ⟨v1, hv1⟩ := Option.isSome_iff_exists.mp (hpres mw.1 hmc).1
        obtain ⟨v2, hv2⟩ := Option.isSome_iff_exists.mp (hpres mw.1 hmc).2
        obtain ⟨n1, n2, e1, e2, hd⟩ := normVal_pair_some
          (List.mem_map_of_mem Prod.fst hmw) hmc hv1 hv2
          (hnn1 mw.1 v1 hv1) (hnn2 mw.1 v2 hv2)
        rw [e2]
        simp [hmc]
      · rw [normVal_pair_none p1 p2 p2 (fun hc => hmc hc.2)]
        simp [hmc]
    have hdiff : ∀ mw ∈ pw.filter (fun mw => decide (mw.1 ∈ cols)),
        (normVal (pw.map Prod.fst) [p1, p2] cols mw.1 p1).getD 0 -
          (normVal (pw.map Prod.fst) [p1, p2] cols mw.1 p2).getD 0 =
        100 * (aheadOn p1 p2 mw.1 : ℚ) := by
      intro mw hmw
      have hmem := List.mem_of_mem_filter hmw
      have hmc : mw.1 ∈ cols := by
        have := List.of_mem_filter hmw
        simpa using this
      obtain ⟨v1, hv1⟩ := Option.isSome_iff_exists.mp (hpres mw.1 hmc).1
      obtain ⟨v2, hv2⟩ := Option.isSome_iff_exists.mp (hpres mw.1 hmc).2
      obtain ⟨n1, n2, e1, e2, hd⟩ := normVal_pair_some
        (List.mem_map_of_mem Prod.fst hmem) hmc hv1 hv2
        (hnn1 mw.1 v1 hv1) (hnn2 mw.1 v2 hv2)
      rw [e1, e2, Option.getD_some, Option.getD_some]
      exact hd
    have hA := sum_diff_pattern (aheadOn p1 p2) (pw.filter (fun mw => decide (mw.1 ∈ cols)))
      (fun m => (normVal (pw.map Prod.fst) [p1, p2] cols m p1).getD 0)
      (fun m => (normVal (pw.map Prod.fst) [p1, p2] cols m p2).getD 0)
      hdiff
    have hpwnn : ∀ mw ∈ pw, 0 ≤ mw.2 := by
      have hnn := position_weights_nonneg p1.position
      rw [hgetD] at hnn
      exact hnn
    have hWnn : 0 ≤ ((pw.filter (fun mw => decide (mw.1 ∈ cols))).map Prod.snd).sum := by
      apply List.sum_nonneg
      intro a ha
      obtain ⟨mw, hmw, heq⟩ := List.mem_map.mp ha
      rw [← heq]
      exact hpwnn mw (List.mem_of_mem_filter hmw)
    have hS1 : playerScore pw (fun m => normVal (pw.map Prod.fst) [p1, p2] cols m p1) =
        (if 0 < ((pw.filter (fun mw => decide (mw.1 ∈ cols))).map Prod.snd).sum
         then ((pw.filter (fun mw => decide (mw.1 ∈ cols))).map
             (fun mw => (normVal (pw.map Prod.fst) [p1, p2] cols mw.1 p1).getD 0 * mw.2)).sum /
           ((pw.filter (fun mw => decide (mw.1 ∈ cols))).map Prod.snd).sum * 100
         else ((pw.filter (fun mw => decide (mw.1 ∈ cols))).map
             (fun mw => (normVal (pw.map Prod.fst) [p1, p2] cols mw.1 p1).getD 0 * mw.2)).sum) := by
      rw [playerScore_eq]
      dsimp only
      rw [hfeq1]
    have hS2 : playerScore pw (fun m => normVal (pw.map Prod.fst) [p1, p2] cols m p2) =
        (if 0 < ((pw.filter (fun mw => decide (mw.1 ∈ cols))).map Prod.snd).sum
         then ((pw.filter (fun mw => decide (mw.1 ∈ cols))).map
             (fun mw => (normVal (pw.map Prod.fst) [p1, p2] cols mw.1 p2).getD 0 * mw.2)).sum /
           ((pw.filter (fun mw => decide (mw.1 ∈ cols))).map Prod.snd).sum * 100
         else ((pw.filter (fun mw => decide (mw.1 ∈ cols))).map
             (fun mw => (normVal (pw.map Prod.fst) [p1, p2] cols mw.1 p2).getD 0 * mw.2)).sum) := by
      rw [playerScore_eq]
      dsimp only
      rw [hfeq2]
    -- the score difference is a positive multiple of the weighted ahead-pattern sum
    obtain ⟨c, hc, hkey⟩ : ∃ c : ℚ, 0 < c ∧
        playerScore pw (fun m => normVal (pw.map Prod.fst) [p1, p2] cols m p1) -
          playerScore pw (fun m => normVal (pw.map Prod.fst) [p1, p2] cols m p2) =
        ((pw.filter (fun mw => decide (mw.1 ∈ cols))).map
          (fun mw => mw.2 * (aheadOn p1 p2 mw.1 : ℚ))).sum * c := by
      by_cases hW : 0 < ((pw.filter (fun mw => decide (mw.1 ∈ cols))).map Prod.snd).sum
      · refine ⟨10000 / ((pw.filter (fun mw => decide (mw.1 ∈ cols))).map Prod.snd).sum,
          by positivity, ?_⟩
        rw [hS1, hS2, if_pos hW, if_pos hW]
        field_simp
        linear_combination
          (100 : ℚ) * hA
      · refine ⟨100, by norm_num, ?_⟩
        rw [hS1, hS2, if_neg hW, if_neg hW]
        linear_combination hA
    rw [hw]
    simp only [Option.getD_some]
    unfold winnerFromPattern
    rw [foldl_add_sum (aheadOn p1 p2) (pw.filter (fun mw => decide (mw.1 ∈ cols))) 0,
      zero_add]
    by_cases hD : 0 < ((pw.filter (fun mw => decide (mw.1 ∈ cols))).map
        (fun mw => mw.2 * (aheadOn p1 p2 mw.1 : ℚ))).sum
    · rw [if_pos (by nlinarith), if_pos hD]
    · by_cases hD2 : ((pw.filter (fun mw => decide (mw.1 ∈ cols))).map
          (fun mw => mw.2 * (aheadOn p1 p2 mw.1 : ℚ))).sum < 0
      · rw [if_neg (by nlinarith), if_pos (by nlinarith), if_neg hD, if_pos hD2]
      · have hz : ((pw.filter (fun mw => decide (mw.1 ∈ cols))).map
            (fun mw => mw.2 * (aheadOn p1 p2 mw.1 : ℚ))).sum = 0 := le_antisymm
          (not_lt.mp hD) (not_lt.mp hD2)
        rw [if_neg (by nlinarith), if_neg (by nlinarith), if_neg hD, if_neg hD2]

/-! ## Claims about head-to-head comparison -/

/-- C10 (counterexample): the winner does not depend only on which player is
ahead per metric.  The two forward pairs (X, Y) have the identical
ahead-pattern — X leads on goals, all other metrics tie — yet with goals
(−1, −2) the `max > 0` guard turns the goals column into a 50/50 tie and the
comparison is a Draw, while with goals (2, 1) X wins; so the magnitudes (the
sign of the maximum) matter. -/
theorem C10_compare_counterexample :
    compare_players metricCols exA1 exA2 = some (5000, 5000, "Draw") ∧
    compare_players metricCols exB1 exB2 = some (7000, 3000, "X") ∧
    (∀ m ∈ metricCols, aheadOn exA1 exA2 m = aheadOn exB1 exB2 m) ∧
    exA1.name = "X" ∧ exB1.name = "X" ∧ exA2.name = "Y" ∧ exB2.name = "Y" ∧
    ("Draw" = "X" → False) := by
  refine ⟨?_, ?_, by decide, rfl, rfl, rfl, rfl, by decide⟩
  · norm_num [compare_players, calculate_player_scores, playerScore, playerScoreStep, normVal,
      nanMax, nanMin, listMax, listMin, position_weights, forwardWeights, metricCols,
      exA1, exA2, exCell, List.filter, List.foldl, List.filterMap, List.lookup]
    decide
  · norm_num [compare_players, calculate_player_scores, playerScore, playerScoreStep, normVal,
      nanMax, nanMin, listMax, listMin, position_weights, forwardWeights, metricCols,
      exB1, exB2, exCell, List.filter, List.foldl, List.filterMap, List.lookup]
    decide

/-- C10 (amended): in a head-to-head comparison every normalized metric value
is exactly 0, 50 or 100, and — provided the two players are distinct, their
metric cells on the table's columns are present (no NaN) and all raw values
are non-negative (so that two differing values always have a positive
maximum) — the reported winner is a function of the ahead-pattern and the
position weights alone, never of the magnitudes of the differences.  Without
the non-negativity proviso the claim fails (see the counterexample): two
differing non-positive values normalize to a 50/50 tie. -/
theorem C10_compare_amended :
    (∀ metrics cols m (p1 p2 r : PRow) v, (r = p1 ∨ r = p2) →
      normVal metrics [p1, p2] cols m r = some v → v = 0 ∨ v = 50 ∨ v = 100) ∧
    (∀ cols (p1 p2 : PRow) s1 s2 w, p1.name ≠ p2.name →
      (∀ m ∈ cols, (p1.cell m).isSome ∧ (p2.cell m).isSome) →
      (∀ m x, p1.cell m = some x → 0 ≤ x) →
      (∀ m x, p2.cell m = some x → 0 ≤ x) →
      compare_players cols p1 p2 = some (s1, s2, w) →
      w = winnerFromPattern ((position_weights p1.position).getD forwardWeights) cols
        (aheadOn p1 p2) p1.name p2.name) :=
  ⟨fun _ _ _ _ _ _ _ hr h => normVal_pair_tri hr h,
   fun _ _ _ _ _ _ hname hpres hnn1 hnn2 h =>
    compare_players_pattern hname hpres hnn1 hnn2 h⟩

theorem C10_compare_amended_witness :
    ((100 : ℚ) = 0 ∨ (100 : ℚ) = 50 ∨ (100 : ℚ) = 100) ∧
    "X" = winnerFromPattern ((position_weights exB1.position).getD forwardWeights)
      metricCols (aheadOn exB1 exB2) exB1.name exB2.name :=
  ⟨C10_compare_amended.1 metricCols metricCols "goals" exB1 exB2 exB1 100 (Or.inl rfl)
    (by norm_num [normVal, nanMax, nanMin, listMax, listMin, metricCols, exB1, exB2, exCell,
      List.filterMap]),
   C10_compare_amended.2 metricCols exB1 exB2 7000 3000 "X" (by decide) (by decide)
    (by
      intro m x hx
      revert hx
      unfold exB1 exCell
      dsimp only
      split <;> intro hx <;>
        first
          | exact Option.noConfusion hx
          | (injection hx with hx2
             rw [← hx2]
             norm_num))
    (by
      intro m x hx
      revert hx
      unfold exB2 exCell
      dsimp only
      split <;> intro hx <;>
        first
          | exact Option.noConfusion hx
          | (injection hx with hx2
             rw [← hx2]
             norm_num))
    (by
      norm_num [compare_players, calculate_player_scores, playerScore, playerScoreStep,
        normVal, nanMax, nanMin, listMax, listMin, position_weights, forwardWeights,
        metricCols, exB1, exB2, exCell, List.filter, List.foldl, List.filterMap, List.lookup]
      decide)⟩
